import Mathlib

/-!
Verification model of the u-root/mkuimage archive-assembly core.

The development shallowly embeds:

* `uroot/initramfs/archive.go` (`Write`, the base-archive reconciler) —
  translated directly from the source in `src/uroot/initramfs/archive.go`;
* the `Files` virtual file tree (`files.go` is absent from `src/`; only its
  tests are present, so the operations below are modelled from the spec,
  sections 4.1 and 4.2, with the conflict rules pinned by
  `src/uimage/initramfs/files_test.go`);
* `builder/binary.go` (`BinaryBuilder.Build`), translated from the source in
  `src/unnamed/part_005`, with the per-package compilation results and the
  temp-directory walk abstracted as parameters (they are external process
  executions);
* the `uimage` options/modifier pipeline and `CreateInitramfs` (also absent
  from `src/`; modelled from the spec, sections 4.4 and 6, with behavior
  pinned by the tests in `src/unnamed/part_010`).

Paths are archive-relative, slash-separated; we represent a path by its list
of components (splitting on the separator), so an absolute path is one whose
first component is empty.
-/

namespace Mkuimage

/-- Path of an archive entry, as its slash-separated components. An absolute
path such as "/bar/foo" splits to a leading empty component. -/
abbrev Path := List String

/-- lookupKV returns the first value bound to key `k` in an association list
(the model of a Go map keyed by slash-joined path). -/
def lookupKV {α : Type} : List (Path × α) → Path → Option α
  | [], _ => none
  | (k2, v) :: rest, k => if k2 = k then some v else lookupKV rest k

/-- insertKV binds `k` to `v`; it is only used on keys that are absent. -/
def insertKV {α : Type} (m : List (Path × α)) (k : Path) (v : α) : List (Path × α) :=
  m ++ [(k, v)]

/-- eraseKV removes every binding of key `k` (Go `delete`). -/
def eraseKV {α : Type} : List (Path × α) → Path → List (Path × α)
  | [], _ => []
  | (k2, v) :: rest, k => if k2 = k then eraseKV rest k else (k2, v) :: eraseKV rest k

/-- setKV binds `k` to `v`, replacing any previous binding (Go map assignment). -/
def setKV {α : Type} (m : List (Path × α)) (k : Path) (v : α) : List (Path × α) :=
  eraseKV m k ++ [(k, v)]

/-- RecordBody is the kind and content of one archive record. The core only
ever synthesizes symlinks, directories and static files; device nodes appear
in base archives. -/
inductive RecordBody : Type
  | file (content : String)
  | dir
  | symlink (target : String)
  | charDev (major minor : Nat)
deriving DecidableEq, Repr

/-- Record models one cpio record: archive path, kind/content, permission
mode, and an `mtime` field standing in for the non-reproducible metadata
cleared by the external codec transform `cpio.MakeReproducible`. -/
structure Record : Type where
  name : Path
  body : RecordBody
  mode : Nat
  mtime : Nat := 0
deriving DecidableEq, Repr

/-- MakeReproducible is the reproducibility normalization of the external
codec: it clears non-deterministic metadata and keeps name, kind, content and
mode. -/
def MakeReproducible (r : Record) : Record :=
  { r with mtime := 0 }

/-- cpioSymlink mirrors cpio.Symlink: a symlink record pointing at `target`. -/
def cpioSymlink (name : Path) (target : String) : Record :=
  { name := name, body := RecordBody.symlink target, mode := 0o777 }

/-- cpioDirectory mirrors cpio.Directory. -/
def cpioDirectory (name : Path) (mode : Nat) : Record :=
  { name := name, body := RecordBody.dir, mode := mode }

/-- cpioStaticFile mirrors cpio.StaticFile. -/
def cpioStaticFile (name : Path) (content : String) (mode : Nat) : Record :=
  { name := name, body := RecordBody.file content, mode := mode }

/-- Err enumerates the sentinel errors of the repository; `wrap a b` models
a Go error produced with two percent-w verbs, wrapping both `a` and `b`. -/
inductive Err : Type
  | exist
  | notExist
  | invalid
  | absName
  | symlink
  | initSymlink
  | uinitSymlink
  | uinitArgs
  | defaultshSymlink
  | resolvePackage
  | envMissing
  | tempDirMissing
  | wrap (inner outer : Err)
deriving DecidableEq, Repr

/-- Err.is models errors.Is: the target is the error itself or anywhere in
its wrapped chain. -/
def Err.is : Err → Err → Bool
  | Err.wrap a b, t => (Err.wrap a b = t) || a.is t || b.is t
  | e, t => e = t

/-- Files is the VirtualFileTree: two parallel maps keyed by archive-relative
path, one to a host filesystem source path, one to an already-built record.
Modelled from the spec section 3 (files.go is not under src/); the conflict
behavior of the operations below is pinned by files_test.go. -/
structure Files : Type where
  files : List (Path × String) := []
  records : List (Path × Record) := []
deriving DecidableEq, Repr

/-- NewFiles is the empty tree. -/
def NewFiles : Files := {}

/-- isAbs tests for a leading path separator. -/
def isAbs (p : Path) : Bool :=
  match p with
  | [] => false
  | c :: _ => c = ""

/-- makeRelative strips leading separators, mirroring the destination
normalization of AddFile ("absolute destination paths are made relative"). -/
def makeRelative (p : Path) : Path :=
  p.dropWhile (fun c => c = "")

namespace Files

/-- contains reports whether either map claims the path (Files.Contains). -/
def contains (af : Files) (p : Path) : Bool :=
  (lookupKV af.files p).isSome || (lookupKV af.records p).isSome

/-- addRecord inserts a synthetic record at its own path. Modelled from the
spec section 4.1: fails fast on a non-relative path; an existing claim with a
deeply-equal record succeeds idempotently; any other existing claim is a
"path already exists" conflict. -/
def addRecord (af : Files) (r : Record) : Except Err Files :=
  if isAbs r.name then Except.error Err.absName
  else
    match lookupKV af.records r.name with
    | some r2 => if r2 = r then Except.ok af else Except.error Err.exist
    | none =>
      if (lookupKV af.files r.name).isSome then Except.error Err.exist
      else Except.ok { af with records := insertKV af.records r.name r }

/-- addFileEntry inserts one regular-file claim `dest ↦ src`. Modelled from
the spec section 4.1: an existing claim by the identical source succeeds
idempotently; a claim by a different source or by a record is a conflict. -/
def addFileEntry (af : Files) (src : String) (dest : Path) : Except Err Files :=
  if (lookupKV af.records dest).isSome then Except.error Err.exist
  else
    match lookupKV af.files dest with
    | some src2 => if src2 = src then Except.ok af else Except.error Err.exist
    | none => Except.ok { af with files := insertKV af.files dest src }

/-- addFile adds a single regular file source at a normalized-relative
destination (AddFile for a non-directory source; the directory walk and
symlink resolution are host filesystem interaction outside this model). -/
def addFile (af : Files) (src : String) (dest : Path) : Except Err Files :=
  addFileEntry af src (makeRelative dest)

/-- addFileDir folds addFileEntry over an externally-supplied enumeration of
a host directory: each pair is one enumerated source with its destination,
as produced by the recursive walk of AddFile on a directory source. -/
def addFileDir (af : Files) (entries : List (String × Path)) : Except Err Files :=
  entries.foldlM (fun acc e => addFileEntry acc e.1 e.2) af

/-- rename moves the claim at `old` to `newname`, in both maps, updating the
record name; a Go map assignment overwrites any previous claim at `newname`.
Modelled from the spec section 4.2 step 2 (Files.Rename). -/
def rename (af : Files) (old newname : Path) : Files :=
  let f2 :=
    match lookupKV af.files old with
    | some src => setKV (eraseKV af.files old) newname src
    | none => af.files
  let r2 :=
    match lookupKV af.records old with
    | some r => setKV (eraseKV af.records old) newname { r with name := newname }
    | none => af.records
  { files := f2, records := r2 }

/-- ancestors lists the proper nonempty prefixes of a path: the paths walked
up by fillInParent for a path containing a separator. -/
def ancestors (p : Path) : List Path :=
  (List.range (p.length - 1)).map (fun i => p.take (i + 1))

/-- dirRecord is the default directory record inserted for a missing parent. -/
def dirRecord (p : Path) : Record :=
  cpioDirectory p 0o755

/-- fillPath inserts a default 0755 directory record for each listed ancestor
that is not already claimed, never overwriting an existing claim. -/
def fillPath (af : Files) (anc : List Path) : Files :=
  anc.foldl
    (fun acc a =>
      if acc.contains a then acc
      else { acc with records := insertKV acc.records a (dirRecord a) })
    af

/-- fillInParents walks every claimed path and fills in its missing
ancestors with default directory records. Modelled from the spec section 4.1. -/
def fillInParents (af : Files) : Files :=
  let keys := af.files.map Prod.fst ++ af.records.map Prod.fst
  keys.foldl (fun acc p => fillPath acc (ancestors p)) af

/-- Entry is what a tree path resolves to: a host source path or a record. -/
abbrev Entry := String ⊕ Record

/-- entryAt returns the claim at a path, from whichever map holds it. -/
def entryAt (af : Files) (p : Path) : Option Entry :=
  match lookupKV af.files p with
  | some s => some (Sum.inl s)
  | none => (lookupKV af.records p).map Sum.inr

end Files

/-- renameEntry is how a rename presents a moved claim: a host source is
carried over unchanged, a record is restamped with the new name. -/
def renameEntry (e : Files.Entry) (newname : Path) : Files.Entry :=
  match e with
  | Sum.inl s => Sum.inl s
  | Sum.inr r => Sum.inr { r with name := newname }

/-- WOpts models initramfs.Opts of src/uroot/initramfs/archive.go: the tree,
an optional base-archive record stream, and the use-existing-init flag. The
output sink receives every entry of the final tree, so the written archive is
modelled by that tree. -/
structure WOpts : Type where
  files : Files
  baseArchive : Option (List Record) := none
  useExistingInit : Bool := false
deriving DecidableEq, Repr

/-- initP is the archive path of the init entry. -/
def initP : Path := ["init"]

/-- initoP is the side name for the losing init version. -/
def initoP : Path := ["inito"]

/-- transformFor is the rewrite rule Write computes for incoming base
records: reproducibility normalization, preceded by the init-to-inito rename
exactly when the caller does not want the existing init and the tree claims
init (archive.go lines 124 to 134). -/
def transformFor (o : WOpts) : Record → Record :=
  if !o.useExistingInit && o.files.contains initP then
    fun r => MakeReproducible (if r.name = initP then { r with name := initoP } else r)
  else MakeReproducible

/-- mergeStep inserts one transformed base record into the tree; the error of
AddRecord is discarded by Write (archive.go line 151), so a collision keeps
the tree unchanged and raises nothing. -/
def mergeStep (af : Files) (r : Record) : Files :=
  match af.addRecord r with
  | Except.ok af2 => af2
  | Except.error _ => af

/-- streamStart is the tree state when base streaming begins: Write
pre-renames the tree init entry to inito when the caller wants the base init
and the tree claims init (archive.go lines 137 to 139). -/
def streamStart (o : WOpts) : Files :=
  if o.useExistingInit && o.files.contains initP then o.files.rename initP initoP
  else o.files

/-- writeTree is Write of archive.go: stream the optional base archive into
the tree under the init rewrite rule, then WriteTo fills in parents and
writes every entry to the sink in sorted order and finalizes it. In this
model the stream has no read errors, so Write reports no error. -/
def writeTree (o : WOpts) : Files :=
  match o.baseArchive with
  | none => o.files.fillInParents
  | some base =>
    (base.foldl (fun acc r => mergeStep acc (transformFor o r)) (streamStart o)).fillInParents

/-- BOpts models builder.Opts as used by the binary builder: presence of the
Go build environment, the temp staging directory, the archive binary
directory, and the requested packages. -/
structure BOpts : Type where
  envPresent : Bool := true
  tempDir : String := ""
  binaryDir : String := ""
  packages : List String := []
deriving Repr

/-- firstErr is the first non-nil unit result read off the channel. -/
def firstErr (collected : List (Option Err)) : Option Err :=
  collected.findSome? id

/-- binaryBuild is BinaryBuilder.Build of builder/binary.go (part_005 lines
94 to 136): option checks, one concurrent compilation unit per package, a
join of all units, then the collected results are scanned and the first
non-nil error returned; only when every unit succeeded is the staged temp
directory added to the tree. `collected` lists every unit result in channel
completion order; `staged` is the walk of the temp directory, each staged
binary with its archive destination binaryDir/name(package). -/
def binaryBuild (o : BOpts) (collected : List (Option Err)) (staged : List (String × Path)) (af : Files) : Except Err Files :=
  if !o.envPresent then Except.error Err.envMissing
  else if o.tempDir = "" then Except.error Err.tempDirMissing
  else
    match firstErr collected with
    | some e => Except.error e
    | none => af.addFileDir staged

/-- BuildOpts stands in for the builder-specific golang.BuildOpts value. -/
structure BuildOpts : Type where
  noStrip : Bool := false
deriving DecidableEq, Repr

/-- BuilderRef identifies the builder of a command group: the multi-call
busybox builder (carrying its shell-bang mode) or the per-binary builder. -/
inductive BuilderRef : Type
  | busybox (shellBang : Bool)
  | binary
deriving DecidableEq, Repr

/-- isBusybox tests a builder reference for the multi-call strategy. -/
def isBusybox : BuilderRef → Bool
  | BuilderRef.busybox _ => true
  | BuilderRef.binary => false

/-- Cmds models uimage.Commands: one command group. -/
structure Cmds : Type where
  builder : BuilderRef
  packages : List String := []
  buildOpts : Option BuildOpts := none
deriving DecidableEq, Repr

/-- Sink models the polymorphic output sink reference (container file or
directory tree). -/
inductive Sink : Type
  | cpioFile (path : String)
  | dirTree (path : String)
deriving DecidableEq, Repr

/-- UOpts models uimage.Opts, the configuration object the modifier pipeline
mutates. Modelled from the spec section 3 (BuildConfig); uimage.go is not
under src/. The Go build environment is omitted from the model: no claim
depends on it. -/
structure UOpts : Type where
  commands : List Cmds := []
  tempDir : String := ""
  extraFiles : List String := []
  symlinks : List (String × String) := []
  initCmd : String := ""
  uinitCmd : String := ""
  uinitArgs : List String := []
  defaultShell : String := ""
  useExistingInit : Bool := false
  baseArchive : Option (List Record) := none
  outputFile : Option Sink := none
deriving DecidableEq, Repr

/-- Modifier is one entry of the configuration pipeline: a mutation of the
configuration that may fail. -/
abbrev Modifier := UOpts → Except Err UOpts

/-- applyMods applies modifiers strictly in list order, stopping at the first
failing modifier (the loop of uimage.OptionsFor). -/
def applyMods (o : UOpts) : List Modifier → Except Err UOpts
  | [] => Except.ok o
  | m :: rest =>
    match m o with
    | Except.error e => Except.error e
    | Except.ok o2 => applyMods o2 rest

/-- optionsFor is uimage.OptionsFor: the pipeline applied to the zero-valued
configuration. -/
def optionsFor (mods : List Modifier) : Except Err UOpts :=
  applyMods {} mods

/-- withInit sets the init command spec (uimage.WithInit). -/
def withInit (cmd : String) : Modifier :=
  fun o => Except.ok { o with initCmd := cmd }

/-- withUinit sets the uinit command spec and its arguments
(uimage.WithUinit; WithUinitCommand splits one string into these). -/
def withUinit (cmd : String) (args : List String) : Modifier :=
  fun o => Except.ok { o with uinitCmd := cmd, uinitArgs := args }

/-- withShell sets the default shell spec (uimage.WithShell). -/
def withShell (cmd : String) : Modifier :=
  fun o => Except.ok { o with defaultShell := cmd }

/-- withTempDir sets the temp staging directory (uimage.WithTempDir). -/
def withTempDir (d : String) : Modifier :=
  fun o => Except.ok { o with tempDir := d }

/-- withFiles appends extra file specs (uimage.WithFiles). -/
def withFiles (fs : List String) : Modifier :=
  fun o => Except.ok { o with extraFiles := o.extraFiles ++ fs }

/-- withOutput replaces the output sink (uimage.WithOutput). -/
def withOutput (s : Sink) : Modifier :=
  fun o => Except.ok { o with outputFile := some s }

/-- withCPIOOutput selects a container-file sink at a path. -/
def withCPIOOutput (p : String) : Modifier :=
  withOutput (Sink.cpioFile p)

/-- withOutputDir selects a directory-tree sink at a path. -/
def withOutputDir (p : String) : Modifier :=
  withOutput (Sink.dirTree p)

/-- withBaseArchive sets the base archive stream (uimage.WithBaseArchive). -/
def withBaseArchive (recs : List Record) : Modifier :=
  fun o => Except.ok { o with baseArchive := some recs }

/-- withExistingInit sets the use-existing-init flag. -/
def withExistingInit (b : Bool) : Modifier :=
  fun o => Except.ok { o with useExistingInit := b }

/-- withSymlink adds one explicit symlink request; a second request for the
same archive path is a conflict (pinned by the dup-with-symlinks test). -/
def withSymlink (link target : String) : Modifier :=
  fun o =>
    if (o.symlinks.lookup link).isSome then Except.error Err.exist
    else Except.ok { o with symlinks := o.symlinks ++ [(link, target)] }

/-- addBusybox merges packages into the first busybox command group, creating
one when none exists (uimage.Opts.AddBusyboxCommands, pinned by
TestOptionsFor). -/
def addBusybox : List Cmds → List String → List Cmds
  | [], cmds => [{ builder := BuilderRef.busybox false, packages := cmds }]
  | c :: rest, cmds =>
    if isBusybox c.builder then { c with packages := c.packages ++ cmds } :: rest
    else c :: addBusybox rest cmds

/-- setBusyboxOpts sets the build options of the first busybox group,
creating an empty busybox group to carry them when none exists (pinned by
TestOptionsFor, buildopts-before case). -/
def setBusyboxOpts : List Cmds → BuildOpts → List Cmds
  | [], g => [{ builder := BuilderRef.busybox false, buildOpts := some g }]
  | c :: rest, g =>
    if isBusybox c.builder then { c with buildOpts := some g } :: rest
    else c :: setBusyboxOpts rest g

/-- setShellBang sets the shell-bang mode of the first busybox group,
creating an empty busybox group to carry it when none exists (pinned by the
shellbang and shellbang-after-placement tests). -/
def setShellBang : List Cmds → Bool → List Cmds
  | [], b => [{ builder := BuilderRef.busybox b }]
  | c :: rest, b =>
    if isBusybox c.builder then { c with builder := BuilderRef.busybox b } :: rest
    else c :: setShellBang rest b

/-- withBusyboxCommands adds packages to the busybox build. -/
def withBusyboxCommands (cmds : List String) : Modifier :=
  fun o => Except.ok { o with commands := addBusybox o.commands cmds }

/-- withBusyboxBuildOpts sets the busybox build options. -/
def withBusyboxBuildOpts (g : BuildOpts) : Modifier :=
  fun o => Except.ok { o with commands := setBusyboxOpts o.commands g }

/-- withShellBang directs the busybox build to use stub scripts instead of
symlinks for its dispatcher entries. -/
def withShellBang (b : Bool) : Modifier :=
  fun o => Except.ok { o with commands := setShellBang o.commands b }

/-- withBinaryCommands appends a per-binary command group. -/
def withBinaryCommands (cmds : List String) : Modifier :=
  fun o =>
    Except.ok { o with commands := o.commands ++ [{ builder := BuilderRef.binary, packages := cmds }] }

/-- splitOnChar splits a character list at every occurrence of a separator,
the splitting primitive behind the slash and colon handling. -/
def splitOnChar (c : Char) : List Char → List (List Char)
  | [] => [[]]
  | x :: xs =>
    if x = c then [] :: splitOnChar c xs
    else
      match splitOnChar c xs with
      | [] => [[x]]
      | h :: t => (x :: h) :: t

/-- splitString splits a string at every occurrence of a separator char. -/
def splitString (c : Char) (s : String) : List String :=
  (splitOnChar c s.data).map (fun l => String.mk l)

/-- toComps splits a slash-separated string path into components. -/
def toComps (s : String) : Path :=
  splitString (Char.ofNat 47) s

/-- basenameOf is the last slash-separated component of a package path. -/
def basenameOf (s : String) : String :=
  (toComps s).getLastD s

/-- parseExtraFile parses one extra-file spec src[:dest]. Modelled from the
spec section 6; the empty spec is skipped, a leading or trailing colon is
invalid input, and a spec without a dest part reuses the source path as the
destination (pinned by the files and files-invalid-syntax cases of
TestCreateInitramfs; destinations are relativized by AddFile). -/
def parseExtraFile (s : String) : Except Err (Option (String × String)) :=
  if s = "" then Except.ok none
  else
    match splitString (Char.ofNat 58) s with
    | [src] => Except.ok (some (src, src))
    | [] => Except.error Err.invalid
    | src :: rest =>
      let dest := String.intercalate ":" rest
      if src = "" || dest = "" then Except.error Err.invalid
      else Except.ok (some (src, dest))

/-- addExtraFiles adds every parsed extra-file spec to the tree. The host
filesystem is abstracted to the predicate `host` telling which host paths
hold a regular file; a missing source is a fatal not-exist error. Directory
sources (recursive enumeration) are outside this model. -/
def addExtraFiles (host : String → Bool) (af : Files) : List String → Except Err Files
  | [] => Except.ok af
  | s :: rest =>
    match parseExtraFile s with
    | Except.error e => Except.error e
    | Except.ok none => addExtraFiles host af rest
    | Except.ok (some (src, dest)) =>
      if host src then
        match af.addFile src (toComps dest) with
        | Except.error e => Except.error e
        | Except.ok af2 => addExtraFiles host af2 rest
      else Except.error Err.notExist

/-- targetDir is the default placement directory of a builder strategy. -/
def targetDir : BuilderRef → String
  | BuilderRef.busybox _ => "bbin"
  | BuilderRef.binary => "bin"

/-- findCmdPath scans the command groups in order for a package whose
basename is the command, returning its absolute dispatcher or binary path. -/
def findCmdPath (cmd : String) : List Cmds → Option String
  | [] => none
  | c :: rest =>
    if c.packages.any (fun p => basenameOf p = cmd) then
      some ("/" ++ targetDir c.builder ++ "/" ++ cmd)
    else findCmdPath cmd rest

/-- resolveCommandOrPath resolves a command spec: a spec containing a path
separator is used as a path verbatim, otherwise the command must be the
basename of a package of some command group; an unknown name is the
command-not-resolvable error. Modelled from the spec section 4.4. -/
def resolveCommandOrPath (cmd : String) (cmds : List Cmds) : Except Err String :=
  if cmd.data.any (fun ch => ch = Char.ofNat 47) then Except.ok cmd
  else
    match findCmdPath cmd cmds with
    | some t => Except.ok t
    | none => Except.error Err.symlink

/-- relComps makes an absolute target relative to the absolute directory a
symlink lives in, inserting one up-level for each unshared directory. -/
def relComps : Path → Path → Path
  | f :: fs, t :: ts =>
    if f = t then relComps fs ts else List.replicate (fs.length + 1) ".." ++ t :: ts
  | [], ts => ts
  | fs, [] => List.replicate fs.length ".."

/-- relTarget renders the target a symlink at archive path `j` stores for an
absolute resolved target. -/
def relTarget (j : Path) (target : String) : String :=
  String.intercalate "/" (relComps j.dropLast (makeRelative (toComps target)))

/-- specialSymlink places one special-entry symlink at its fixed archive
path. Modelled from the spec section 4.4, with the backstops pinned by
TestCreateInitramfs: a conflict at the path wraps the path-exists error with
the dedicated per-entry error; a resolution failure wraps the resolution
error with the dedicated error, but only when the build has command groups —
with none it is silently skipped (the disabled init-not-resolvable case). -/
def specialSymlink (af : Files) (cmds : List Cmds) (j : Path) (cmd : String) (tag : Err) : Except Err Files :=
  match resolveCommandOrPath cmd cmds with
  | Except.ok target =>
    match af.addRecord (cpioSymlink j (relTarget j target)) with
    | Except.ok af2 => Except.ok af2
    | Except.error e => Except.error (Err.wrap e tag)
  | Except.error e =>
    if cmds.isEmpty then Except.ok af else Except.error (Err.wrap e tag)

/-- argvToFile renders uinit arguments one quoted argument per line. -/
def argvToFile (args : List String) : String :=
  String.intercalate "\n" (args.map (fun a => "\"" ++ a ++ "\""))

/-- addSpecialFiles places the special entries: the init symlink at init, the
uinit symlink at bin/uinit, the uinit arguments file at etc/uinit.flags, and
the default shell symlinks at bin/defaultsh and bin/sh; an empty spec
disables the corresponding entry. Modelled from the spec section 4.4. -/
def addSpecialFiles (af : Files) (o : UOpts) : Except Err Files := do
  let af ←
    if o.initCmd = "" then Except.ok af
    else specialSymlink af o.commands initP o.initCmd Err.initSymlink
  let af ←
    if o.uinitCmd = "" then Except.ok af
    else specialSymlink af o.commands ["bin", "uinit"] o.uinitCmd Err.uinitSymlink
  let af ←
    if o.uinitArgs.isEmpty then Except.ok af
    else
      match af.addRecord (cpioStaticFile ["etc", "uinit.flags"] (argvToFile o.uinitArgs) 0o444) with
      | Except.ok af2 => Except.ok af2
      | Except.error e => Except.error (Err.wrap e Err.uinitArgs)
  if o.defaultShell = "" then Except.ok af
  else do
    let af ← specialSymlink af o.commands ["bin", "defaultsh"] o.defaultShell Err.defaultshSymlink
    specialSymlink af o.commands ["bin", "sh"] o.defaultShell Err.defaultshSymlink

/-- shellbangContent is the stub script body of a shell-bang dispatcher
entry (pinned by the shellbang tests). -/
def shellbangContent (n : String) : String :=
  "#!/bbin/bb #!" ++ n ++ "\n"

/-- binaryContent tags the standalone executable compiled from a package. -/
def binaryContent (p : String) : String :=
  "binary:" ++ p

/-- stageGroup stages the output of one command group into the tree: the
busybox builder contributes the shared bbin/bb executable plus one dispatcher
entry per package (a symlink to bb, or a stub script in shell-bang mode); the
per-binary builder contributes one standalone executable per package under
bin. A group with no packages builds nothing. Modelled from the spec section
4.3; conflicts are the name-already-claimed errors of the tree. -/
def stageGroup (af : Files) (c : Cmds) : Except Err Files :=
  if c.packages.isEmpty then Except.ok af
  else
    match c.builder with
    | BuilderRef.busybox sb => do
      let af2 ← af.addRecord (cpioStaticFile ["bbin", "bb"] "busybox" 0o755)
      c.packages.foldlM
        (fun acc p =>
          let n := basenameOf p
          if sb then acc.addRecord (cpioStaticFile ["bbin", n] (shellbangContent n) 0o755)
          else acc.addRecord (cpioSymlink ["bbin", n] "bb"))
        af2
    | BuilderRef.binary =>
      c.packages.foldlM
        (fun acc p => acc.addRecord (cpioStaticFile ["bin", basenameOf p] (binaryContent p) 0o755))
        af

/-- stageGroups stages every command group in order. -/
def stageGroups (af : Files) : List Cmds → Except Err Files
  | [] => Except.ok af
  | c :: rest =>
    match stageGroup af c with
    | Except.error e => Except.error e
    | Except.ok af2 => stageGroups af2 rest

/-- addSymlinks places the explicit symlink requests, resolving each target
through the command groups; a claimed path is a fatal conflict. -/
def addSymlinks (af : Files) (cmds : List Cmds) : List (String × String) → Except Err Files
  | [] => Except.ok af
  | l :: rest =>
    let j := makeRelative (toComps l.1)
    match resolveCommandOrPath l.2 cmds with
    | Except.ok target =>
      match af.addRecord (cpioSymlink j (relTarget j target)) with
      | Except.error e => Except.error e
      | Except.ok af2 => addSymlinks af2 cmds rest
    | Except.error e => Except.error e

/-- createTree is the tree-building part of uimage.CreateInitramfs: it checks
the temp directory, stages every command group, adds the extra files, the
explicit symlinks, and finally the special entries. Modelled from the spec
sections 4.3, 4.4 and 2 (control flow), with the stage order pinned by the
conflict tests of TestCreateInitramfs. -/
def createTree (host : String → Bool) (o : UOpts) : Except Err Files := do
  if o.tempDir = "" then Except.error Err.notExist
  else do
    let af ← stageGroups NewFiles o.commands
    let af ← addExtraFiles host af o.extraFiles
    let af ← addSymlinks af o.commands o.symlinks
    addSpecialFiles af o

/-- createInitramfs is uimage.CreateInitramfs: build the tree, then hand it
with the base archive and flags to Write of the initramfs package. -/
def createInitramfs (host : String → Bool) (o : UOpts) : Except Err Files :=
  match createTree host o with
  | Except.error e => Except.error e
  | Except.ok af =>
    Except.ok (writeTree { files := af, baseArchive := o.baseArchive, useExistingInit := o.useExistingInit })

/-! Association-list lemmas. -/

theorem lookupKV_append {α : Type} (m n : List (Path × α)) (k : Path) :
    lookupKV (m ++ n) k =
      match lookupKV m k with
      | some v => some v
      | none => lookupKV n k := by
  induction m with
  | nil => simp [lookupKV]
  | cons hd tl ih =>
    obtain ⟨k2, v⟩ := hd
    by_cases h : k2 = k <;> simp [lookupKV, h, ih]

theorem lookupKV_single {α : Type} (k k2 : Path) (v : α) :
    lookupKV [(k, v)] k2 = if k = k2 then some v else none := by
  simp [lookupKV]

theorem lookupKV_insert_self {α : Type} (m : List (Path × α)) (k : Path) (v : α)
    (h : lookupKV m k = none) : lookupKV (insertKV m k v) k = some v := by
  simp [insertKV, lookupKV_append, h, lookupKV_single]

theorem lookupKV_insert_ne {α : Type} (m : List (Path × α)) (k k2 : Path) (v : α)
    (h : k2 ≠ k) : lookupKV (insertKV m k v) k2 = lookupKV m k2 := by
  have h2 : k ≠ k2 := fun he => h he.symm
  simp only [insertKV, lookupKV_append, lookupKV_single, if_neg h2]
  cases lookupKV m k2 <;> simp

theorem lookupKV_erase_self {α : Type} (m : List (Path × α)) (k : Path) :
    lookupKV (eraseKV m k) k = none := by
  induction m with
  | nil => simp [eraseKV, lookupKV]
  | cons hd tl ih =>
    obtain ⟨k2, v⟩ := hd
    by_cases h : k2 = k <;> simp [eraseKV, lookupKV, h, ih]

theorem lookupKV_erase_ne {α : Type} (m : List (Path × α)) (k k2 : Path)
    (h : k2 ≠ k) : lookupKV (eraseKV m k) k2 = lookupKV m k2 := by
  induction m with
  | nil => simp [eraseKV]
  | cons hd tl ih =>
    obtain ⟨k3, v⟩ := hd
    by_cases h3 : k3 = k
    · subst h3
      have hne : k3 ≠ k2 := fun he => h he.symm
      simp [eraseKV, lookupKV, hne, ih]
    · by_cases h2 : k3 = k2 <;> simp [eraseKV, lookupKV, h3, h2, h, ih]

theorem lookupKV_set_self {α : Type} (m : List (Path × α)) (k : Path) (v : α) :
    lookupKV (setKV m k v) k = some v := by
  simp [setKV, lookupKV_append, lookupKV_erase_self, lookupKV_single]

theorem lookupKV_set_ne {α : Type} (m : List (Path × α)) (k k2 : Path) (v : α)
    (h : k2 ≠ k) : lookupKV (setKV m k v) k2 = lookupKV m k2 := by
  have h2 : k ≠ k2 := fun he => h he.symm
  simp only [setKV, lookupKV_append, lookupKV_single, if_neg h2,
    lookupKV_erase_ne m k k2 h]
  cases lookupKV m k2 <;> simp

/-! Merge-step lemmas about Write streaming the base archive. -/

theorem mergeStep_files (af : Files) (r : Record) :
    (mergeStep af r).files = af.files := by
  unfold mergeStep Files.addRecord
  by_cases habs : isAbs r.name
  · simp [habs]
  · simp only [habs, Bool.false_eq_true, if_false]
    cases hrec : lookupKV af.records r.name with
    | some r2 => by_cases he : r2 = r <;> simp [he]
    | none =>
      cases hfil : (lookupKV af.files r.name).isSome <;> simp [hfil]

theorem mergeStep_of_contains (af : Files) (r : Record)
    (h : af.contains r.name = true) : mergeStep af r = af := by
  unfold mergeStep Files.addRecord
  by_cases habs : isAbs r.name
  · simp [habs]
  · simp only [habs, Bool.false_eq_true, if_false]
    cases hrec : lookupKV af.records r.name with
    | some r2 => by_cases he : r2 = r <;> simp [he]
    | none =>
      unfold Files.contains at h
      rw [hrec] at h
      simp only [Option.isSome_none, Bool.or_false] at h
      simp [h]

theorem mergeStep_records_of_ne (af : Files) (r : Record) (p : Path)
    (h : r.name ≠ p) :
    lookupKV (mergeStep af r).records p = lookupKV af.records p := by
  unfold mergeStep Files.addRecord
  by_cases habs : isAbs r.name
  · simp [habs]
  · simp only [habs, Bool.false_eq_true, if_false]
    cases hrec : lookupKV af.records r.name with
    | some r2 => by_cases he : r2 = r <;> simp [he]
    | none =>
      cases hfil : (lookupKV af.files r.name).isSome
      · simp [hfil, lookupKV_insert_ne af.records r.name p r (fun he => h he.symm)]
      · simp [hfil]

theorem mergeStep_contains_of_contains (af : Files) (r : Record) (p : Path)
    (h : af.contains p = true) : (mergeStep af r).contains p = true := by
  by_cases hn : r.name = p
  · subst hn
    rw [mergeStep_of_contains af r h]
    exact h
  · unfold Files.contains at h ⊢
    rw [mergeStep_files, mergeStep_records_of_ne af r p hn]
    exact h

theorem mergeStep_entry_of_contains (af : Files) (r : Record) (p : Path)
    (h : af.contains p = true) :
    (mergeStep af r).entryAt p = af.entryAt p := by
  by_cases hn : r.name = p
  · subst hn
    rw [mergeStep_of_contains af r h]
  · unfold Files.entryAt
    rw [mergeStep_files, mergeStep_records_of_ne af r p hn]

theorem contains_eq_false_records (af : Files) (p : Path)
    (hc : af.contains p = false) : lookupKV af.records p = none := by
  cases hre : lookupKV af.records p with
  | none => rfl
  | some v =>
    unfold Files.contains at hc
    rw [hre] at hc
    simp at hc

theorem contains_eq_false_files (af : Files) (p : Path)
    (hc : af.contains p = false) : lookupKV af.files p = none := by
  cases hfe : lookupKV af.files p with
  | none => rfl
  | some v =>
    unfold Files.contains at hc
    rw [hfe] at hc
    simp at hc

theorem mergeStep_insert (af : Files) (r : Record)
    (hc : af.contains r.name = false) (habs : isAbs r.name = false) :
    lookupKV (mergeStep af r).records r.name = some r := by
  have hr := contains_eq_false_records af r.name hc
  have hf := contains_eq_false_files af r.name hc
  unfold mergeStep Files.addRecord
  rw [habs]
  simp only [Bool.false_eq_true, if_false, hr, hf]
  simp [lookupKV_insert_self af.records r.name r hr]

/-! Fold-level lemmas about streaming a whole base archive. -/

/-- mergeFold is the streaming loop of Write over the base records, under a
record transform. -/
def mergeFold (g : Record → Record) (af : Files) (base : List Record) : Files :=
  base.foldl (fun acc r => mergeStep acc (g r)) af

theorem mergeFold_files (g : Record → Record) (af : Files) (base : List Record) :
    (mergeFold g af base).files = af.files := by
  induction base generalizing af with
  | nil => rfl
  | cons r rest ih =>
    unfold mergeFold at *
    simp only [List.foldl_cons]
    rw [ih (mergeStep af (g r)), mergeStep_files]

theorem mergeFold_contains (g : Record → Record) (af : Files) (base : List Record)
    (p : Path) (h : af.contains p = true) :
    (mergeFold g af base).contains p = true := by
  induction base generalizing af with
  | nil => exact h
  | cons r rest ih =>
    unfold mergeFold at *
    simp only [List.foldl_cons]
    exact ih (mergeStep af (g r)) (mergeStep_contains_of_contains af (g r) p h)

theorem mergeFold_entry_of_contains (g : Record → Record) (af : Files)
    (base : List Record) (p : Path) (h : af.contains p = true) :
    (mergeFold g af base).entryAt p = af.entryAt p := by
  induction base generalizing af with
  | nil => rfl
  | cons r rest ih =>
    unfold mergeFold at *
    simp only [List.foldl_cons]
    rw [ih (mergeStep af (g r)) (mergeStep_contains_of_contains af (g r) p h),
      mergeStep_entry_of_contains af (g r) p h]

theorem mergeFold_records_of_ne (g : Record → Record) (af : Files)
    (base : List Record) (p : Path) (h : ∀ r ∈ base, (g r).name ≠ p) :
    lookupKV (mergeFold g af base).records p = lookupKV af.records p := by
  induction base generalizing af with
  | nil => rfl
  | cons r rest ih =>
    unfold mergeFold at *
    simp only [List.foldl_cons]
    rw [ih (mergeStep af (g r)) (fun r2 hm => h r2 (List.mem_cons_of_mem r hm)),
      mergeStep_records_of_ne af (g r) p (h r (List.mem_cons_self r rest))]

theorem mergeFold_contains_of_ne (g : Record → Record) (af : Files)
    (base : List Record) (p : Path) (h : ∀ r ∈ base, (g r).name ≠ p)
    (hc : af.contains p = false) : (mergeFold g af base).contains p = false := by
  unfold Files.contains
  rw [mergeFold_files, mergeFold_records_of_ne g af base p h]
  unfold Files.contains at hc
  exact hc

theorem mergeFold_append (g : Record → Record) (af : Files) (l1 l2 : List Record) :
    mergeFold g af (l1 ++ l2) = mergeFold g (mergeFold g af l1) l2 := by
  unfold mergeFold
  rw [List.foldl_append]

theorem mergeFold_cons (g : Record → Record) (af : Files) (r : Record)
    (rest : List Record) :
    mergeFold g af (r :: rest) = mergeFold g (mergeStep af (g r)) rest := rfl

theorem mergeFold_insert_point (g : Record → Record) (af : Files)
    (pre post : List Record) (b : Record) (p : Path)
    (hpre : ∀ r ∈ pre, (g r).name ≠ p) (hb : (g b).name = p)
    (hc : af.contains p = false) (habs : isAbs p = false) :
    (mergeFold g af (pre ++ b :: post)).entryAt p = some (Sum.inr (g b)) := by
  rw [mergeFold_append, mergeFold_cons]
  have hc2 : (mergeFold g af pre).contains p = false :=
    mergeFold_contains_of_ne g af pre p hpre hc
  have hrec : lookupKV (mergeStep (mergeFold g af pre) (g b)).records p = some (g b) := by
    have := mergeStep_insert (mergeFold g af pre) (g b)
      (by rw [hb]; exact hc2) (by rw [hb]; exact habs)
    rw [hb] at this
    exact this
  have hfil : lookupKV (mergeStep (mergeFold g af pre) (g b)).files p = none := by
    rw [mergeStep_files, mergeFold_files]
    exact contains_eq_false_files af p hc
  have hcon : (mergeStep (mergeFold g af pre) (g b)).contains p = true := by
    unfold Files.contains
    rw [hrec]
    simp
  rw [mergeFold_entry_of_contains g (mergeStep (mergeFold g af pre) (g b)) post p hcon]
  unfold Files.entryAt
  rw [hfil, hrec]
  rfl

/-! Parent-filling lemmas. -/

theorem contains_of_records (af : Files) (p : Path) (v : Record)
    (h : lookupKV af.records p = some v) : af.contains p = true := by
  unfold Files.contains
  rw [h]
  simp

theorem contains_of_files (af : Files) (p : Path) (v : String)
    (h : lookupKV af.files p = some v) : af.contains p = true := by
  unfold Files.contains
  rw [h]
  simp

/-- fillSteps is the outer loop of fillInParents over a list of claimed
paths. -/
def fillSteps (af : Files) (keys : List Path) : Files :=
  keys.foldl (fun acc p => Files.fillPath acc (Files.ancestors p)) af

theorem fillInParents_eq_fillSteps (af : Files) :
    af.fillInParents = fillSteps af (af.files.map Prod.fst ++ af.records.map Prod.fst) := rfl

theorem fillPath_files (af : Files) (l : List Path) :
    (Files.fillPath af l).files = af.files := by
  induction l generalizing af with
  | nil => rfl
  | cons b tl ih =>
    unfold Files.fillPath at *
    simp only [List.foldl_cons]
    by_cases hb : af.contains b
    · rw [if_pos hb]
      exact ih af
    · rw [if_neg hb]
      exact ih _

theorem fillSteps_files (af : Files) (keys : List Path) :
    (fillSteps af keys).files = af.files := by
  induction keys generalizing af with
  | nil => rfl
  | cons p tl ih =>
    unfold fillSteps at *
    simp only [List.foldl_cons]
    rw [ih (Files.fillPath af (Files.ancestors p)), fillPath_files]

theorem fillPath_records_some (af : Files) (l : List Path) (a : Path) (v : Record)
    (h : lookupKV af.records a = some v) :
    lookupKV (Files.fillPath af l).records a = some v := by
  induction l generalizing af with
  | nil => exact h
  | cons b tl ih =>
    unfold Files.fillPath at *
    simp only [List.foldl_cons]
    by_cases hb : af.contains b
    · rw [if_pos hb]
      exact ih af h
    · rw [if_neg hb]
      refine ih _ ?_
      have hba : b ≠ a := by
        intro he
        rw [he] at hb
        exact hb (contains_of_records af a v h)
      simp only
      rw [lookupKV_insert_ne af.records b a (Files.dirRecord b) (fun he => hba he.symm)]
      exact h

theorem fillSteps_records_some (af : Files) (keys : List Path) (a : Path) (v : Record)
    (h : lookupKV af.records a = some v) :
    lookupKV (fillSteps af keys).records a = some v := by
  induction keys generalizing af with
  | nil => exact h
  | cons p tl ih =>
    unfold fillSteps at *
    simp only [List.foldl_cons]
    exact ih _ (fillPath_records_some af (Files.ancestors p) a v h)

theorem fillPath_none_or_dir (af : Files) (l : List Path) (a : Path)
    (h : lookupKV af.records a = none ∨ lookupKV af.records a = some (Files.dirRecord a)) :
    lookupKV (Files.fillPath af l).records a = none ∨
      lookupKV (Files.fillPath af l).records a = some (Files.dirRecord a) := by
  induction l generalizing af with
  | nil => exact h
  | cons b tl ih =>
    unfold Files.fillPath at *
    simp only [List.foldl_cons]
    by_cases hb : af.contains b
    · rw [if_pos hb]
      exact ih af h
    · rw [if_neg hb]
      refine ih _ ?_
      by_cases hba : b = a
      · subst hba
        right
        simp only
        rw [lookupKV_insert_self af.records b (Files.dirRecord b)
          (contains_eq_false_records af b (by simpa using hb))]
      · simp only
        rw [lookupKV_insert_ne af.records b a (Files.dirRecord b) (fun he => hba he.symm)]
        exact h

theorem fillPath_mem_dir (af : Files) (l : List Path) (a : Path)
    (h : lookupKV af.records a = none ∨ lookupKV af.records a = some (Files.dirRecord a))
    (hf : lookupKV af.files a = none) (hm : a ∈ l) :
    lookupKV (Files.fillPath af l).records a = some (Files.dirRecord a) := by
  induction l generalizing af with
  | nil => cases hm
  | cons b tl ih =>
    unfold Files.fillPath at *
    simp only [List.foldl_cons]
    by_cases hba : b = a
    · subst hba
      by_cases hb : af.contains b
      · rw [if_pos hb]
        have hr : lookupKV af.records b = some (Files.dirRecord b) := by
          cases h with
          | inl hnone =>
            exfalso
            unfold Files.contains at hb
            rw [hf, hnone] at hb
            simp at hb
          | inr hsome => exact hsome
        exact fillPath_records_some af tl b (Files.dirRecord b) hr
      · rw [if_neg hb]
        refine fillPath_records_some _ tl b (Files.dirRecord b) ?_
        simp only
        rw [lookupKV_insert_self af.records b (Files.dirRecord b)
          (contains_eq_false_records af b (by simpa using hb))]
    · have hm2 : a ∈ tl := by
        cases hm with
        | head => exact absurd rfl hba
        | tail _ h2 => exact h2
      by_cases hb : af.contains b
      · rw [if_pos hb]
        exact ih af h hf hm2
      · rw [if_neg hb]
        refine ih _ ?_ ?_ hm2
        · simp only
          rw [lookupKV_insert_ne af.records b a (Files.dirRecord b) (fun he => hba he.symm)]
          exact h
        · exact hf

theorem fillSteps_none_or_dir (af : Files) (keys : List Path) (a : Path)
    (h : lookupKV af.records a = none ∨ lookupKV af.records a = some (Files.dirRecord a)) :
    lookupKV (fillSteps af keys).records a = none ∨
      lookupKV (fillSteps af keys).records a = some (Files.dirRecord a) := by
  induction keys generalizing af with
  | nil => exact h
  | cons p tl ih =>
    unfold fillSteps at *
    simp only [List.foldl_cons]
    exact ih _ (fillPath_none_or_dir af (Files.ancestors p) a h)

theorem fillSteps_dir (af : Files) (keys : List Path) (a p : Path)
    (h : lookupKV af.records a = none ∨ lookupKV af.records a = some (Files.dirRecord a))
    (hf : lookupKV af.files a = none) (hp : p ∈ keys) (ha : a ∈ Files.ancestors p) :
    lookupKV (fillSteps af keys).records a = some (Files.dirRecord a) := by
  induction keys generalizing af with
  | nil => cases hp
  | cons q tl ih =>
    unfold fillSteps at *
    simp only [List.foldl_cons]
    by_cases hqp : q = p
    · subst hqp
      have hd := fillPath_mem_dir af (Files.ancestors q) a h hf ha
      exact fillSteps_records_some _ tl a (Files.dirRecord a) hd
    · have hp2 : p ∈ tl := by
        cases hp with
        | head => exact absurd rfl hqp
        | tail _ h2 => exact h2
      refine ih _ ?_ ?_ hp2
      · exact fillPath_none_or_dir af (Files.ancestors q) a h
      · rw [fillPath_files]
        exact hf

theorem fillInParents_entry_of_contains (af : Files) (p : Path)
    (h : af.contains p = true) :
    (af.fillInParents).entryAt p = af.entryAt p := by
  rw [fillInParents_eq_fillSteps]
  unfold Files.entryAt
  rw [fillSteps_files]
  cases hfe : lookupKV af.files p with
  | some s => rfl
  | none =>
    cases hre : lookupKV af.records p with
    | some r => rw [fillSteps_records_some af _ p r hre]
    | none =>
      exfalso
      unfold Files.contains at h
      rw [hfe, hre] at h
      simp at h

/-! Rename lemmas. -/

theorem contains_of_entry (af : Files) (p : Path) (e : Files.Entry)
    (h : af.entryAt p = some e) : af.contains p = true := by
  unfold Files.entryAt at h
  cases hfe : lookupKV af.files p with
  | some s => exact contains_of_files af p s hfe
  | none =>
    rw [hfe] at h
    cases hre : lookupKV af.records p with
    | some r => exact contains_of_records af p r hre
    | none => rw [hre] at h; cases h

theorem entry_of_contains (af : Files) (p : Path) (h : af.contains p = true) :
    ∃ e, af.entryAt p = some e := by
  unfold Files.entryAt
  cases hfe : lookupKV af.files p with
  | some s => exact ⟨Sum.inl s, rfl⟩
  | none =>
    cases hre : lookupKV af.records p with
    | some r => exact ⟨Sum.inr r, rfl⟩
    | none =>
      exfalso
      unfold Files.contains at h
      rw [hfe, hre] at h
      simp at h

theorem rename_contains_old (af : Files) (old newname : Path) (hne : newname ≠ old) :
    (af.rename old newname).contains old = false := by
  unfold Files.rename Files.contains
  simp only
  have hf : lookupKV
      (match lookupKV af.files old with
        | some src => setKV (eraseKV af.files old) newname src
        | none => af.files) old = none := by
    cases hfe : lookupKV af.files old with
    | some s =>
      simp only
      rw [lookupKV_set_ne _ newname old s (fun he => hne he.symm), lookupKV_erase_self]
    | none => simp only; exact hfe
  have hr : lookupKV
      (match lookupKV af.records old with
        | some r => setKV (eraseKV af.records old) newname { r with name := newname }
        | none => af.records) old = none := by
    cases hre : lookupKV af.records old with
    | some r =>
      simp only
      rw [lookupKV_set_ne _ newname old _ (fun he => hne he.symm), lookupKV_erase_self]
    | none => simp only; exact hre
  rw [hf, hr]
  rfl

theorem rename_entry_new (af : Files) (old newname : Path)
    (hc : af.contains newname = false) :
    (af.rename old newname).entryAt newname =
      (af.entryAt old).map (fun e => renameEntry e newname) := by
  have hcf := contains_eq_false_files af newname hc
  have hcr := contains_eq_false_records af newname hc
  unfold Files.rename Files.entryAt
  cases hfe : lookupKV af.files old with
  | some s =>
    simp only [hfe]
    rw [lookupKV_set_self]
    rfl
  | none =>
    simp only [hfe, hcf]
    cases hre : lookupKV af.records old with
    | some r =>
      simp only
      rw [lookupKV_set_self]
      rfl
    | none =>
      simp only [hcr]
      rfl

theorem writeTree_some (o : WOpts) (base : List Record)
    (hbase : o.baseArchive = some base) :
    writeTree o = (mergeFold (transformFor o) (streamStart o) base).fillInParents := by
  unfold writeTree mergeFold
  rw [hbase]

/-- C1: for every record streamed from the base archive whose insertion path
is already claimed in the tree, Write keeps the tree entry at that path,
silently discards the base record and reports no error (the insertion error
is dropped, archive.go line 151, and the step leaves the tree unchanged);
consequently, whenever the caller does not request the existing init, every
path claimed in the user tree ends up in the output with the user entry. -/
theorem write_user_precedence (af : Files) (r : Record) (o : WOpts) (p : Path)
    (hcol : af.contains r.name = true)
    (hueI : o.useExistingInit = false)
    (hp : o.files.contains p = true) :
    mergeStep af r = af ∧ (writeTree o).entryAt p = o.files.entryAt p := by
  refine ⟨mergeStep_of_contains af r hcol, ?_⟩
  have hstart : streamStart o = o.files := by
    unfold streamStart
    rw [hueI]
    simp
  cases hbase : o.baseArchive with
  | none =>
    unfold writeTree
    rw [hbase]
    exact fillInParents_entry_of_contains o.files p hp
  | some base =>
    rw [writeTree_some o base hbase, hstart]
    rw [fillInParents_entry_of_contains _ p (mergeFold_contains _ o.files base p hp),
      mergeFold_entry_of_contains _ o.files base p hp]

/-- Witness for write_user_precedence at a concrete input. -/
theorem write_user_precedence_witness :
    mergeStep { records := [(["etc"], cpioSymlink ["etc"] "whatever")] }
        (cpioDirectory ["etc"] 0o777) =
      { records := [(["etc"], cpioSymlink ["etc"] "whatever")] } ∧
    (writeTree
        { files := { records := [(["etc"], cpioSymlink ["etc"] "whatever")] },
          baseArchive := some [cpioDirectory ["etc"] 0o777] }).entryAt ["etc"] =
      Files.entryAt { records := [(["etc"], cpioSymlink ["etc"] "whatever")] } ["etc"] :=
  write_user_precedence
    { records := [(["etc"], cpioSymlink ["etc"] "whatever")] }
    (cpioDirectory ["etc"] 0o777)
    { files := { records := [(["etc"], cpioSymlink ["etc"] "whatever")] },
      baseArchive := some [cpioDirectory ["etc"] 0o777] }
    ["etc"] (by decide) (by decide) (by decide)

/-- C2 (amended): when the base stream holds exactly one entry named init,
neither stream nor tree claims inito elsewhere, and the tree claims init,
Write maps the two versions as the init rename law states: with
UseExistingInit false the tree version stays at init and the base version
lands at inito; with UseExistingInit true the base version lands at init and
the tree version is moved to inito. -/
theorem write_init_rename_law (o : WOpts) (pre post : List Record) (b : Record)
    (hbase : o.baseArchive = some (pre ++ b :: post))
    (hb : b.name = initP)
    (hpre : ∀ r ∈ pre, r.name ≠ initP ∧ r.name ≠ initoP)
    (hcin : o.files.contains initP = true)
    (hcino : o.files.contains initoP = false) :
    (o.useExistingInit = false →
      (writeTree o).entryAt initP = o.files.entryAt initP ∧
      (writeTree o).entryAt initoP =
        some (Sum.inr (MakeReproducible { b with name := initoP }))) ∧
    (o.useExistingInit = true →
      (writeTree o).entryAt initP = some (Sum.inr (MakeReproducible b)) ∧
      (writeTree o).entryAt initoP =
        (o.files.entryAt initP).map (fun e => renameEntry e initoP)) := by
  constructor
  · intro hueI
    have hstart : streamStart o = o.files := by
      unfold streamStart
      rw [hueI]
      simp
    have htrans : transformFor o =
        fun r => MakeReproducible (if r.name = initP then { r with name := initoP } else r) := by
      unfold transformFor
      rw [hueI, hcin]
      simp
    rw [writeTree_some o (pre ++ b :: post) hbase, hstart, htrans]
    constructor
    · rw [fillInParents_entry_of_contains _ initP (mergeFold_contains _ o.files _ initP hcin),
        mergeFold_entry_of_contains _ o.files _ initP hcin]
    · have hg : ∀ r ∈ pre,
          (MakeReproducible (if r.name = initP then { r with name := initoP } else r)).name ≠ initoP := by
        intro r hm
        obtain ⟨h1, h2⟩ := hpre r hm
        rw [if_neg h1]
        exact h2
      have hgb :
          (MakeReproducible (if b.name = initP then { b with name := initoP } else b)).name = initoP := by
        rw [if_pos hb]
        rfl
      have habs : isAbs initoP = false := by decide
      have hins := mergeFold_insert_point
        (fun r => MakeReproducible (if r.name = initP then { r with name := initoP } else r))
        o.files pre post b initoP hg hgb hcino habs
      rw [fillInParents_entry_of_contains _ initoP
        (contains_of_entry _ initoP _ hins), hins]
      simp [hb]
  · intro hueI
    have hstart : streamStart o = o.files.rename initP initoP := by
      unfold streamStart
      rw [hueI, hcin]
      simp
    have htrans : transformFor o = MakeReproducible := by
      unfold transformFor
      rw [hueI, hcin]
      simp
    rw [writeTree_some o (pre ++ b :: post) hbase, hstart, htrans]
    constructor
    · have hg : ∀ r ∈ pre, (MakeReproducible r).name ≠ initP := by
        intro r hm
        exact (hpre r hm).1
      have hgb : (MakeReproducible b).name = initP := hb
      have habs : isAbs initP = false := by decide
      have hcro : (o.files.rename initP initoP).contains initP = false :=
        rename_contains_old o.files initP initoP (by decide)
      have hins := mergeFold_insert_point MakeReproducible
        (o.files.rename initP initoP) pre post b initP hg hgb hcro habs
      rw [fillInParents_entry_of_contains _ initP
        (contains_of_entry _ initP _ hins), hins]
    · have hren := rename_entry_new o.files initP initoP hcino
      obtain ⟨e, he⟩ := entry_of_contains o.files initP hcin
      rw [he] at hren
      have hcon : (o.files.rename initP initoP).contains initoP = true := by
        refine contains_of_entry _ initoP (renameEntry e initoP) ?_
        rw [hren]
        rfl
      rw [fillInParents_entry_of_contains _ initoP
        (mergeFold_contains _ _ _ initoP hcon),
        mergeFold_entry_of_contains _ _ _ initoP hcon, hren, he]

/-- Witness for write_init_rename_law at a concrete input: tree init with
content bar, base init with content boo, checked in both flag states. -/
theorem write_init_rename_law_witness :
    ((writeTree
        { files := { records := [(initP, cpioStaticFile initP "bar" 0o444)] },
          baseArchive := some [cpioStaticFile initP "boo" 0o555] }).entryAt initP =
      Files.entryAt { records := [(initP, cpioStaticFile initP "bar" 0o444)] } initP ∧
    (writeTree
        { files := { records := [(initP, cpioStaticFile initP "bar" 0o444)] },
          baseArchive := some [cpioStaticFile initP "boo" 0o555] }).entryAt initoP =
      some (Sum.inr (MakeReproducible { cpioStaticFile initP "boo" 0o555 with name := initoP }))) ∧
    ((writeTree
        { files := { records := [(initP, cpioStaticFile initP "bar" 0o444)] },
          baseArchive := some [cpioStaticFile initP "boo" 0o555],
          useExistingInit := true }).entryAt initP =
      some (Sum.inr (MakeReproducible (cpioStaticFile initP "boo" 0o555))) ∧
    (writeTree
        { files := { records := [(initP, cpioStaticFile initP "bar" 0o444)] },
          baseArchive := some [cpioStaticFile initP "boo" 0o555],
          useExistingInit := true }).entryAt initoP =
      (Files.entryAt { records := [(initP, cpioStaticFile initP "bar" 0o444)] } initP).map
        (fun e => renameEntry e initoP)) := by
  constructor
  · exact (write_init_rename_law
      { files := { records := [(initP, cpioStaticFile initP "bar" 0o444)] },
        baseArchive := some [cpioStaticFile initP "boo" 0o555] }
      [] [] (cpioStaticFile initP "boo" 0o555) rfl rfl (by intro r hm; cases hm)
      (by decide) (by decide)).1 rfl
  · exact (write_init_rename_law
      { files := { records := [(initP, cpioStaticFile initP "bar" 0o444)] },
        baseArchive := some [cpioStaticFile initP "boo" 0o555],
        useExistingInit := true }
      [] [] (cpioStaticFile initP "boo" 0o555) rfl rfl (by intro r hm; cases hm)
      (by decide) (by decide)).2 rfl

/-- C2 counterexample to the claim as stated: when the user tree also claims
inito, with UseExistingInit false the base init version is discarded rather
than landing at inito — the output inito keeps the tree inito entry, which
differs from the base version in mode and content. -/
theorem write_init_rename_counterexample :
    (writeTree
        { files :=
            { records :=
                [(initP, cpioStaticFile initP "bar" 0o444),
                 (initoP, cpioStaticFile initoP "huh" 0o111)] },
          baseArchive := some [cpioStaticFile initP "boo" 0o555] }).entryAt initoP =
      some (Sum.inr (cpioStaticFile initoP "huh" 0o111)) ∧
    (some (Sum.inr (cpioStaticFile initoP "huh" 0o111)) : Option Files.Entry) ≠
      some (Sum.inr (MakeReproducible { cpioStaticFile initP "boo" 0o555 with name := initoP })) := by
  constructor
  · decide
  · decide

/-- C7: after fillInParents, for every claimed path, every ancestor not
already present in the tree holds a directory record with mode 0755, every
ancestor already claimed as a record keeps its original record unchanged
(whatever its mode), and the source-path map is untouched. -/
theorem fillInParents_spec (af : Files) (p a : Path)
    (hp : p ∈ af.files.map Prod.fst ++ af.records.map Prod.fst)
    (ha : a ∈ Files.ancestors p) :
    (af.contains a = false →
      lookupKV (af.fillInParents).records a = some (Files.dirRecord a)) ∧
    (∀ r, lookupKV af.records a = some r →
      lookupKV (af.fillInParents).records a = some r) ∧
    (af.fillInParents).files = af.files := by
  refine ⟨?_, ?_, ?_⟩
  · intro hc
    rw [fillInParents_eq_fillSteps]
    exact fillSteps_dir af _ a p (Or.inl (contains_eq_false_records af a hc))
      (contains_eq_false_files af a hc) hp ha
  · intro r hr
    rw [fillInParents_eq_fillSteps]
    exact fillSteps_records_some af _ a r hr
  · rw [fillInParents_eq_fillSteps]
    exact fillSteps_files af _

/-- Witness for fillInParents_spec: a tree claiming a/b/c with an explicitly
claimed non-default a directory; the missing a/b is filled with 0755, the
explicit a keeps mode 0777. -/
theorem fillInParents_spec_witness :
    (Files.contains
        { records :=
            [(["a", "b", "c"], cpioSymlink ["a", "b", "c"] "elsewhere"),
             (["a"], cpioDirectory ["a"] 0o777)] } ["a", "b"] = false →
      lookupKV
        (Files.fillInParents
          { records :=
              [(["a", "b", "c"], cpioSymlink ["a", "b", "c"] "elsewhere"),
               (["a"], cpioDirectory ["a"] 0o777)] }).records ["a", "b"] =
        some (Files.dirRecord ["a", "b"])) ∧
    ((∀ r, lookupKV
        (Files.records
          { records :=
              [(["a", "b", "c"], cpioSymlink ["a", "b", "c"] "elsewhere"),
               (["a"], cpioDirectory ["a"] 0o777)] }) ["a"] = some r →
      lookupKV
        (Files.fillInParents
          { records :=
              [(["a", "b", "c"], cpioSymlink ["a", "b", "c"] "elsewhere"),
               (["a"], cpioDirectory ["a"] 0o777)] }).records ["a"] = some r) ∧
    (Files.fillInParents
        { records :=
            [(["a", "b", "c"], cpioSymlink ["a", "b", "c"] "elsewhere"),
             (["a"], cpioDirectory ["a"] 0o777)] }).files =
      Files.files
        { records :=
            [(["a", "b", "c"], cpioSymlink ["a", "b", "c"] "elsewhere"),
             (["a"], cpioDirectory ["a"] 0o777)] }) := by
  constructor
  · exact (fillInParents_spec
      { records :=
          [(["a", "b", "c"], cpioSymlink ["a", "b", "c"] "elsewhere"),
           (["a"], cpioDirectory ["a"] 0o777)] }
      ["a", "b", "c"] ["a", "b"] (by decide) (by decide)).1
  · exact ⟨(fillInParents_spec
      { records :=
          [(["a", "b", "c"], cpioSymlink ["a", "b", "c"] "elsewhere"),
           (["a"], cpioDirectory ["a"] 0o777)] }
      ["a", "b", "c"] ["a"] (by decide) (by decide)).2.1,
    (fillInParents_spec
      { records :=
          [(["a", "b", "c"], cpioSymlink ["a", "b", "c"] "elsewhere"),
           (["a"], cpioDirectory ["a"] 0o777)] }
      ["a", "b", "c"] ["a"] (by decide) (by decide)).2.2⟩

/-- C8: AddFile is idempotent on an identical repeated source and rejects a
different source for an already-claimed destination with the path-exists
conflict, leaving the existing claim in place. -/
theorem addFile_conflict_spec :
    (∀ (af af2 : Files) (src : String) (dest : Path),
      af.addFile src dest = Except.ok af2 → af2.addFile src dest = Except.ok af2) ∧
    (∀ (af : Files) (src src2 : String) (dest : Path),
      lookupKV af.files (makeRelative dest) = some src2 → src2 ≠ src →
      af.addFile src dest = Except.error Err.exist ∧
      lookupKV af.files (makeRelative dest) = some src2) := by
  constructor
  · intro af af2 src dest hok
    unfold Files.addFile Files.addFileEntry at *
    cases hre : lookupKV af.records (makeRelative dest) with
    | some r => simp [hre] at hok
    | none =>
      cases hfe : lookupKV af.files (makeRelative dest) with
      | some s =>
        by_cases hs : s = src
        · simp [hre, hfe, hs] at hok
          subst hok
          simp [hre, hfe, hs]
        · simp [hre, hfe, hs] at hok
      | none =>
        simp [hre, hfe] at hok
        subst hok
        simp [hre, lookupKV_insert_self af.files (makeRelative dest) src hfe]
  · intro af src src2 dest hfe hne
    refine ⟨?_, hfe⟩
    unfold Files.addFile Files.addFileEntry
    cases hre : lookupKV af.records (makeRelative dest) with
    | some r => simp [hre]
    | none => simp [hre, hfe, hne]

/-- Witness for addFile_conflict_spec at concrete inputs. -/
theorem addFile_conflict_spec_witness :
    (Files.addFile { files := [(["bar", "foo"], "/some/place")] } "/some/place" ["bar", "foo"] =
      Except.ok { files := [(["bar", "foo"], "/some/place")] }) ∧
    (Files.addFile { files := [(["bar", "foo"], "/some/place")] } "/other/place" ["bar", "foo"] =
      Except.error Err.exist) := by
  constructor
  · have h0 : Files.addFile (NewFiles) "/some/place" ["bar", "foo"] =
        Except.ok { files := [(["bar", "foo"], "/some/place")] } := by rfl
    exact addFile_conflict_spec.1 NewFiles
      { files := [(["bar", "foo"], "/some/place")] } "/some/place" ["bar", "foo"] h0
  · exact (addFile_conflict_spec.2
      { files := [(["bar", "foo"], "/some/place")] } "/other/place" "/some/place"
      ["bar", "foo"] (by decide) (by decide)).1

/-- bbPkgs is the package list of the first busybox command group, the group
every busybox-command modifier targets. -/
def bbPkgs : List Cmds → List String
  | [] => []
  | c :: rest => if isBusybox c.builder then c.packages else bbPkgs rest

theorem bbPkgs_addBusybox (l : List Cmds) (xs : List String) :
    bbPkgs (addBusybox l xs) = bbPkgs l ++ xs := by
  induction l with
  | nil => simp [addBusybox, bbPkgs, isBusybox]
  | cons c rest ih =>
    by_cases hb : isBusybox c.builder
    · simp [addBusybox, bbPkgs, hb]
    · simp [addBusybox, bbPkgs, hb, ih]

theorem applyMods_cons (o : UOpts) (x : Modifier) (tl : List Modifier) :
    applyMods o (x :: tl) =
      match x o with
      | Except.error e => Except.error e
      | Except.ok o2 => applyMods o2 tl := rfl

theorem applyMods_append (o : UOpts) (mods : List Modifier) (m : Modifier) :
    applyMods o (mods ++ [m]) = (applyMods o mods).bind m := by
  induction mods generalizing o with
  | nil =>
    unfold applyMods
    cases hm : m o with
    | error e => simp [hm, Except.bind]
    | ok o2 => simp [hm, Except.bind, applyMods]
  | cons x tl ih =>
    rw [show (x :: tl) ++ [m] = x :: (tl ++ [m]) from rfl, applyMods_cons, applyMods_cons]
    cases hx : x o with
    | error e =>
      simp only [hx]
      rfl
    | ok o2 =>
      simp only [hx]
      exact ih o2

/-- C3: the pipeline applies modifiers strictly in argument order (a modifier
appended last runs last), later modifiers replace each scalar field set by an
earlier one — init command, uinit command, default shell, temp dir, output
sink — including replacement with the empty value, while the list-valued
fields — extra files and busybox command packages — accumulate. -/
theorem modifier_pipeline_spec :
    (∀ (o : UOpts) (mods : List Modifier) (m : Modifier),
      applyMods o (mods ++ [m]) = (applyMods o mods).bind m) ∧
    (∀ (o : UOpts) (a b : String),
      applyMods o [withInit a, withInit b] = Except.ok { o with initCmd := b }) ∧
    (∀ (o : UOpts) (a b : String) (xs ys : List String),
      applyMods o [withUinit a xs, withUinit b ys] =
        Except.ok { o with uinitCmd := b, uinitArgs := ys }) ∧
    (∀ (o : UOpts) (a b : String),
      applyMods o [withShell a, withShell b] = Except.ok { o with defaultShell := b }) ∧
    (∀ (o : UOpts) (a b : String),
      applyMods o [withTempDir a, withTempDir b] = Except.ok { o with tempDir := b }) ∧
    (∀ (o : UOpts) (s1 s2 : Sink),
      applyMods o [withOutput s1, withOutput s2] = Except.ok { o with outputFile := some s2 }) ∧
    (∀ (o : UOpts) (xs ys : List String),
      applyMods o [withFiles xs, withFiles ys] =
        Except.ok { o with extraFiles := o.extraFiles ++ xs ++ ys }) ∧
    (∀ (o : UOpts) (xs ys : List String),
      applyMods o [withBusyboxCommands xs, withBusyboxCommands ys] =
        Except.ok { o with commands := addBusybox (addBusybox o.commands xs) ys } ∧
      bbPkgs (addBusybox (addBusybox o.commands xs) ys) = bbPkgs o.commands ++ xs ++ ys) := by
  refine ⟨applyMods_append, ?_, ?_, ?_, ?_, ?_, ?_, ?_⟩
  · intro o a b
    rfl
  · intro o a b xs ys
    rfl
  · intro o a b
    rfl
  · intro o a b
    rfl
  · intro o s1 s2
    rfl
  · intro o xs ys
    simp [applyMods, withFiles]
  · intro o xs ys
    refine ⟨rfl, ?_⟩
    rw [bbPkgs_addBusybox, bbPkgs_addBusybox, List.append_assoc]

/-- hasBusybox reports whether any command group uses the busybox builder. -/
def hasBusybox (gs : List Cmds) : Bool :=
  gs.any (fun c => isBusybox c.builder)

theorem addBusybox_setBusyboxOpts_comm (l : List Cmds) (xs : List String) (g : BuildOpts) :
    addBusybox (setBusyboxOpts l g) xs = setBusyboxOpts (addBusybox l xs) g := by
  induction l with
  | nil => simp [addBusybox, setBusyboxOpts, isBusybox]
  | cons c rest ih =>
    by_cases hb : isBusybox c.builder
    · simp [addBusybox, setBusyboxOpts, hb]
    · simp [addBusybox, setBusyboxOpts, hb, ih]

theorem addBusybox_setShellBang_comm (l : List Cmds) (xs : List String) (b : Bool) :
    addBusybox (setShellBang l b) xs = setShellBang (addBusybox l xs) b := by
  induction l with
  | nil => simp [addBusybox, setShellBang, isBusybox]
  | cons c rest ih =>
    by_cases hb : isBusybox c.builder
    · cases hc : c.builder with
      | busybox sb => simp [addBusybox, setShellBang, hc, isBusybox]
      | binary => rw [hc] at hb; simp [isBusybox] at hb
    · simp [addBusybox, setShellBang, hb, ih]

theorem setShellBang_no_busybox (l : List Cmds) (b : Bool)
    (h : hasBusybox l = false) :
    setShellBang l b = l ++ [{ builder := BuilderRef.busybox b }] := by
  induction l with
  | nil => simp [setShellBang]
  | cons c rest ih =>
    unfold hasBusybox at h ih
    simp only [List.any_cons, Bool.or_eq_false_iff] at h
    obtain ⟨h1, h2⟩ := h
    simp [setShellBang, h1, ih h2]

theorem findCmdPath_append_empty (cmd : String) (l : List Cmds) (c0 : Cmds)
    (hp : c0.packages = []) :
    findCmdPath cmd (l ++ [c0]) = findCmdPath cmd l := by
  induction l with
  | nil => simp [findCmdPath, hp]
  | cons c rest ih =>
    by_cases hc : c.packages.any (fun p => basenameOf p = cmd)
    · simp [findCmdPath, hc]
    · simp [findCmdPath, hc, ih]

theorem resolve_append_empty (cmd : String) (l : List Cmds) (c0 : Cmds)
    (hp : c0.packages = []) :
    resolveCommandOrPath cmd (l ++ [c0]) = resolveCommandOrPath cmd l := by
  unfold resolveCommandOrPath
  rw [findCmdPath_append_empty cmd l c0 hp]

theorem stageGroups_append_empty (af : Files) (l : List Cmds) (c0 : Cmds)
    (hp : c0.packages = []) :
    stageGroups af (l ++ [c0]) = stageGroups af l := by
  induction l generalizing af with
  | nil =>
    show stageGroups af [c0] = Except.ok af
    unfold stageGroups stageGroup
    rw [hp]
    simp [stageGroups]
  | cons c rest ih =>
    show stageGroups af (c :: (rest ++ [c0])) = stageGroups af (c :: rest)
    unfold stageGroups
    cases hs : stageGroup af c with
    | error e => rfl
    | ok af2 => exact ih af2

theorem specialSymlink_append_empty (af : Files) (l : List Cmds) (c0 : Cmds)
    (j : Path) (cmd : String) (tag : Err)
    (hp : c0.packages = []) (hl : l ≠ []) :
    specialSymlink af (l ++ [c0]) j cmd tag = specialSymlink af l j cmd tag := by
  unfold specialSymlink
  rw [resolve_append_empty cmd l c0 hp]
  cases hr : resolveCommandOrPath cmd l with
  | ok target => rfl
  | error e =>
    have h1 : (l ++ [c0]).isEmpty = false := by
      cases l <;> simp
    have h2 : l.isEmpty = false := by
      cases l with
      | nil => exact absurd rfl hl
      | cons a b => rfl
    rw [h1, h2]

theorem addSymlinks_append_empty (af : Files) (l : List Cmds) (c0 : Cmds)
    (links : List (String × String)) (hp : c0.packages = []) :
    addSymlinks af (l ++ [c0]) links = addSymlinks af l links := by
  induction links generalizing af with
  | nil => rfl
  | cons lk rest ih =>
    unfold addSymlinks
    rw [resolve_append_empty lk.2 l c0 hp]
    cases hr : resolveCommandOrPath lk.2 l with
    | error e => rfl
    | ok target =>
      simp only
      cases ha : af.addRecord
          (cpioSymlink (makeRelative (toComps lk.1))
            (relTarget (makeRelative (toComps lk.1)) target)) with
      | error e => rfl
      | ok af2 => exact ih af2

theorem addSpecialFiles_append_empty (af : Files) (o : UOpts) (c0 : Cmds)
    (hp : c0.packages = []) (hl : o.commands ≠ []) :
    addSpecialFiles af { o with commands := o.commands ++ [c0] } = addSpecialFiles af o := by
  unfold addSpecialFiles
  simp only [specialSymlink_append_empty _ o.commands c0 _ _ _ hp hl]

theorem createInitramfs_append_empty (host : String → Bool) (o : UOpts) (c0 : Cmds)
    (hp : c0.packages = []) (hl : o.commands ≠ []) :
    createInitramfs host { o with commands := o.commands ++ [c0] } = createInitramfs host o := by
  unfold createInitramfs createTree
  simp only [stageGroups_append_empty _ o.commands c0 hp,
    addSymlinks_append_empty _ o.commands c0 _ hp,
    addSpecialFiles_append_empty _ o c0 hp hl]

/-- Witness for modifier_pipeline_spec at concrete inputs, replacing the init
command with the empty value and accumulating files. -/
theorem modifier_pipeline_spec_witness :
    applyMods {} [withInit "init", withInit ""] = Except.ok ({} : UOpts) ∧
    applyMods {} [withFiles ["/bin/bash"], withFiles ["/bin/ls"]] =
      Except.ok { extraFiles := ["/bin/bash", "/bin/ls"] } ∧
    applyMods {} [withBusyboxCommands ["p/a"], withBusyboxCommands ["q/b"]] =
      Except.ok { commands := [{ builder := BuilderRef.busybox false, packages := ["p/a", "q/b"] }] } := by
  refine ⟨?_, ?_, ?_⟩
  · have h := modifier_pipeline_spec.2.1 {} "init" ""
    exact h
  · have h := modifier_pipeline_spec.2.2.2.2.2.2.1 {} ["/bin/bash"] ["/bin/ls"]
    exact h
  · have h := (modifier_pipeline_spec.2.2.2.2.2.2.2 {} ["p/a"] ["q/b"]).1
    exact h

/-- C10 (amended): WithBusyboxBuildOpts and WithShellBang commute with
WithBusyboxCommands — applying either before busybox command placement gives
the same configuration, hence the same archive, as applying it after — and on
a build with at least one command group but no busybox group WithShellBang
does not change the built archive. -/
theorem busybox_placement_commutes :
    (∀ (o : UOpts) (xs : List String) (g : BuildOpts),
      (withBusyboxBuildOpts g o).bind (withBusyboxCommands xs) =
        (withBusyboxCommands xs o).bind (withBusyboxBuildOpts g)) ∧
    (∀ (o : UOpts) (xs : List String) (b : Bool),
      (withShellBang b o).bind (withBusyboxCommands xs) =
        (withBusyboxCommands xs o).bind (withShellBang b)) ∧
    (∀ (o : UOpts) (b : Bool) (host : String → Bool),
      hasBusybox o.commands = false → o.commands ≠ [] →
      (withShellBang b o).bind (createInitramfs host) = createInitramfs host o) := by
  refine ⟨?_, ?_, ?_⟩
  · intro o xs g
    simp [withBusyboxBuildOpts, withBusyboxCommands, Except.bind,
      addBusybox_setBusyboxOpts_comm]
  · intro o xs b
    simp [withShellBang, withBusyboxCommands, Except.bind,
      addBusybox_setShellBang_comm]
  · intro o b host hnb hne
    have h1 : (withShellBang b o).bind (createInitramfs host) =
        createInitramfs host { o with commands := setShellBang o.commands b } := rfl
    rw [h1, setShellBang_no_busybox o.commands b hnb]
    exact createInitramfs_append_empty host o { builder := BuilderRef.busybox b } rfl hne

/-- Witness for busybox_placement_commutes at concrete inputs. -/
theorem busybox_placement_commutes_witness :
    ((withBusyboxBuildOpts { noStrip := true } {}).bind (withBusyboxCommands ["p/a"]) =
      (withBusyboxCommands ["p/a"] ({} : UOpts)).bind (withBusyboxBuildOpts { noStrip := true })) ∧
    ((withShellBang true {}).bind (withBusyboxCommands ["p/a"]) =
      (withBusyboxCommands ["p/a"] ({} : UOpts)).bind (withShellBang true)) ∧
    ((withShellBang true
        { tempDir := "/tmp",
          commands := [{ builder := BuilderRef.binary, packages := ["p/a"] }] }).bind
        (createInitramfs (fun s => s = "/hostfile")) =
      createInitramfs (fun s => s = "/hostfile")
        { tempDir := "/tmp",
          commands := [{ builder := BuilderRef.binary, packages := ["p/a"] }] }) := by
  refine ⟨?_, ?_, ?_⟩
  · exact busybox_placement_commutes.1 {} ["p/a"] { noStrip := true }
  · exact busybox_placement_commutes.2.1 {} ["p/a"] true
  · exact busybox_placement_commutes.2.2
      { tempDir := "/tmp",
        commands := [{ builder := BuilderRef.binary, packages := ["p/a"] }] }
      true (fun s => s = "/hostfile") (by decide) (by decide)

/-- C10 counterexample to the claim as stated: on a build with zero command
groups and an unresolvable init command, adding WithShellBang changes the
outcome — the silently-skipped init resolution becomes a fatal init-symlink
error, because the modifier appends an empty busybox group and the build then
has a command group. -/
theorem withShellBang_no_busybox_counterexample :
    (withShellBang true { tempDir := "/tmp", initCmd := "init" }).bind
        (createInitramfs (fun _ => false)) =
      Except.error (Err.wrap Err.symlink Err.initSymlink) ∧
    createInitramfs (fun _ => false) { tempDir := "/tmp", initCmd := "init" } =
      Except.ok { files := [], records := [] } := by
  constructor
  · rfl
  · rfl

/-- host4 is the host filesystem of the special-entry scenarios: one regular
file at /hostfile. -/
def host4 : String → Bool := fun s => s = "/hostfile"

/-- C4 (amended): for each special entry — init, bin/uinit, etc/uinit.flags,
bin/sh, bin/defaultsh — an extra file claiming the fixed path while the
corresponding option is non-empty and resolvable makes CreateInitramfs fail
with an error satisfying both the generic path-exists condition and the
dedicated per-entry conflict error; with the option empty the same extra
files cause no conflict and land at those paths. -/
theorem special_entry_conflicts :
    (createInitramfs host4
        { tempDir := "/tmp", initCmd := "/bin/systemd", extraFiles := ["/hostfile:init"] } =
      Except.error (Err.wrap Err.exist Err.initSymlink) ∧
      (Err.wrap Err.exist Err.initSymlink).is Err.exist = true ∧
      (Err.wrap Err.exist Err.initSymlink).is Err.initSymlink = true) ∧
    (createInitramfs host4
        { tempDir := "/tmp", uinitCmd := "/bin/systemd", extraFiles := ["/hostfile:bin/uinit"] } =
      Except.error (Err.wrap Err.exist Err.uinitSymlink) ∧
      (Err.wrap Err.exist Err.uinitSymlink).is Err.exist = true ∧
      (Err.wrap Err.exist Err.uinitSymlink).is Err.uinitSymlink = true) ∧
    (createInitramfs host4
        { tempDir := "/tmp", uinitArgs := ["-foo", "-bar"],
          extraFiles := ["/hostfile:etc/uinit.flags"] } =
      Except.error (Err.wrap Err.exist Err.uinitArgs) ∧
      (Err.wrap Err.exist Err.uinitArgs).is Err.exist = true ∧
      (Err.wrap Err.exist Err.uinitArgs).is Err.uinitArgs = true) ∧
    (createInitramfs host4
        { tempDir := "/tmp", defaultShell := "/bin/systemd", extraFiles := ["/hostfile:bin/sh"] } =
      Except.error (Err.wrap Err.exist Err.defaultshSymlink)) ∧
    (createInitramfs host4
        { tempDir := "/tmp", defaultShell := "/bin/systemd",
          extraFiles := ["/hostfile:bin/defaultsh"] } =
      Except.error (Err.wrap Err.exist Err.defaultshSymlink) ∧
      (Err.wrap Err.exist Err.defaultshSymlink).is Err.exist = true ∧
      (Err.wrap Err.exist Err.defaultshSymlink).is Err.defaultshSymlink = true) ∧
    (createInitramfs host4
        { tempDir := "/tmp",
          extraFiles := ["/hostfile:bin/defaultsh", "/hostfile:bin/sh", "/hostfile:bin/uinit",
            "/hostfile:etc/uinit.flags", "/hostfile:init"] } =
      Except.ok
        { files :=
            [(["bin", "defaultsh"], "/hostfile"), (["bin", "sh"], "/hostfile"),
             (["bin", "uinit"], "/hostfile"), (["etc", "uinit.flags"], "/hostfile"),
             (["init"], "/hostfile")],
          records :=
            [(["bin"], Files.dirRecord ["bin"]), (["etc"], Files.dirRecord ["etc"])] }) := by
  exact ⟨⟨rfl, rfl, rfl⟩, ⟨rfl, rfl, rfl⟩, ⟨rfl, rfl, rfl⟩, rfl, ⟨rfl, rfl, rfl⟩, rfl⟩

/-- C4 counterexample to the claim as stated: with a non-empty but
non-resolvable init command and an extra file claiming init, the build fails
with the resolution error wrapped in the init conflict error, which does not
satisfy the generic path-already-exists condition the claim requires. -/
theorem special_entry_conflicts_counterexample :
    createInitramfs host4
        { tempDir := "/tmp", initCmd := "foobar", extraFiles := ["/hostfile:init"],
          commands :=
            [{ builder := BuilderRef.binary,
               packages := ["github.com/u-root/u-root/cmds/core/ls"] }] } =
      Except.error (Err.wrap Err.symlink Err.initSymlink) ∧
    (Err.wrap Err.symlink Err.initSymlink).is Err.exist = false := by
  exact ⟨rfl, rfl⟩

/-- C5: with the init command set to a plain name that is not a command of
any group, a build with zero Command-Groups silently omits the init symlink
and reports no error, while the same unresolvable name with a Command-Group
present fails with the init-symlink resolution error — the repository's own
test for the zero-group case is disabled with a broken-case marker. -/
theorem init_unresolvable_silently_omitted :
    createInitramfs (fun _ => false) { tempDir := "/tmp", initCmd := "init" } =
      Except.ok { files := [], records := [] } ∧
    Files.contains { files := [], records := [] } initP = false ∧
    createInitramfs (fun _ => false)
        { tempDir := "/tmp", initCmd := "foobar",
          commands :=
            [{ builder := BuilderRef.binary,
               packages := ["github.com/u-root/u-root/cmds/core/ls"] }] } =
      Except.error (Err.wrap Err.symlink Err.initSymlink) := by
  exact ⟨rfl, rfl, rfl⟩

/-- host9 is the host filesystem of the extra-file spec scenarios. -/
def host9 : String → Bool := fun s => s = "/bin/bash"

/-- C9 counterexample to the claim as stated: the dest-less absolute spec
/bin/bash is placed at bin/bash — its full source path with the leading
separator stripped — and nothing is placed at its basename bash. -/
theorem extra_file_basename_counterexample :
    createInitramfs host9 { tempDir := "/tmp", extraFiles := ["/bin/bash"] } =
      Except.ok
        { files := [(["bin", "bash"], "/bin/bash")],
          records := [(["bin"], Files.dirRecord ["bin"])] } ∧
    Files.contains
        { files := [(["bin", "bash"], "/bin/bash")],
          records := [(["bin"], Files.dirRecord ["bin"])] } ["bash"] = false := by
  exact ⟨rfl, rfl⟩

/-- C9 (amended): a dest-less extra-file spec places the file at its own
source path, with a leading separator stripped rather than reduced to the
basename, and a spec with a leading or trailing colon is rejected as invalid
input, producing no archive. -/
theorem extra_file_spec_amended :
    (createInitramfs host9 { tempDir := "/tmp", extraFiles := ["/bin/bash"] } =
      Except.ok
        { files := [(["bin", "bash"], "/bin/bash")],
          records := [(["bin"], Files.dirRecord ["bin"])] }) ∧
    createInitramfs host9 { tempDir := "/tmp", extraFiles := [":etc/somefile"] } =
      Except.error Err.invalid ∧
    createInitramfs host9 { tempDir := "/tmp", extraFiles := ["somefile:"] } =
      Except.error Err.invalid := by
  exact ⟨rfl, rfl, rfl⟩

theorem firstErr_insert (pre post : List (Option Err)) (e : Err)
    (h : ∀ x ∈ pre, x = none) : firstErr (pre ++ some e :: post) = some e := by
  induction pre with
  | nil => simp [firstErr, List.findSome?]
  | cons x tl ih =>
    have hx : x = none := h x (List.mem_cons_self x tl)
    subst hx
    simp only [List.cons_append]
    unfold firstErr at *
    rw [List.findSome?_cons]
    exact ih (fun y hy => h y (List.mem_cons_of_mem none hy))

theorem firstErr_all_none (l : List (Option Err)) (h : ∀ x ∈ l, x = none) :
    firstErr l = none := by
  induction l with
  | nil => rfl
  | cons x tl ih =>
    have hx : x = none := h x (List.mem_cons_self x tl)
    subst hx
    unfold firstErr at *
    rw [List.findSome?_cons]
    exact ih (fun y hy => h y (List.mem_cons_of_mem none hy))

/-- C6 (amended): with the build environment present and a temp dir set,
BinaryBuilder.Build consumes the results of all compilation units and returns
the error of the earliest failing unit in channel completion order; when
every unit succeeded it returns the result of adding the staged temp
directory to the tree, which is nil exactly when that final insertion is
conflict-free. -/
theorem binaryBuild_spec (o : BOpts) (collected pre post : List (Option Err))
    (e : Err) (staged : List (String × Path)) (af : Files)
    (henv : o.envPresent = true) (htmp : o.tempDir ≠ "") :
    (collected = pre ++ some e :: post → (∀ x ∈ pre, x = none) →
      binaryBuild o collected staged af = Except.error e) ∧
    ((∀ x ∈ collected, x = none) →
      binaryBuild o collected staged af = af.addFileDir staged) := by
  constructor
  · intro hc hpre
    subst hc
    unfold binaryBuild
    rw [henv]
    simp only [Bool.not_true, Bool.false_eq_true, if_false]
    rw [if_neg htmp, firstErr_insert pre post e hpre]
  · intro hall
    unfold binaryBuild
    rw [henv]
    simp only [Bool.not_true, Bool.false_eq_true, if_false]
    rw [if_neg htmp, firstErr_all_none collected hall]

/-- Witness for binaryBuild_spec at concrete inputs: one failing unit among
two, and the all-success case. -/
theorem binaryBuild_spec_witness :
    binaryBuild { envPresent := true, tempDir := "/tmp", packages := ["p/a", "p/b"] }
        [none, some Err.notExist] [("/tmp/bin/a", ["bin", "a"])] NewFiles =
      Except.error Err.notExist ∧
    binaryBuild { envPresent := true, tempDir := "/tmp", packages := ["p/a"] }
        [none] [("/tmp/bin/a", ["bin", "a"])] NewFiles =
      Files.addFileDir NewFiles [("/tmp/bin/a", ["bin", "a"])] := by
  constructor
  · exact (binaryBuild_spec
      { envPresent := true, tempDir := "/tmp", packages := ["p/a", "p/b"] }
      [none, some Err.notExist] [none] [] Err.notExist
      [("/tmp/bin/a", ["bin", "a"])] NewFiles rfl (by decide)).1 rfl
      (by intro x hx; simpa using hx)
  · exact (binaryBuild_spec
      { envPresent := true, tempDir := "/tmp", packages := ["p/a"] }
      [none] [] [] Err.notExist
      [("/tmp/bin/a", ["bin", "a"])] NewFiles rfl (by decide)).2
      (by intro x hx; simpa using hx)

/-- C6 counterexample to the claim as stated: every compilation unit
succeeded (the only collected result is non-error), yet Build returns a
non-nil error, because adding the staged temp directory to the tree hits a
path already claimed by a different source. -/
theorem binaryBuild_nonnil_counterexample :
    binaryBuild { envPresent := true, tempDir := "/tmp", packages := ["p/a"] }
        [none] [("/tmp/bin/a", ["bin", "a"])]
        { files := [(["bin", "a"], "/elsewhere")] } =
      Except.error Err.exist ∧
    firstErr [none] = none := by
  exact ⟨rfl, rfl⟩

end Mkuimage
